import Mathlib

/-!
Verification development for the ionity-prices repository.

We give a shallow embedding of the two core source modules:

* `ionity_scrape_helpers.py` — the text-to-money parser (`Money`,
  `SubscriptionTerms`, `extract_amount_currency`,
  `extract_subscription_price`).  The Python functions use `re.search`
  with the concrete patterns
  `([^\d\s]{1,3})?\s*(\d+\.?\d+)\s*([^\d\s]{1,3})?`  (amount) and
  `([^\d\s]{1,3})?\s*(\d*,?\d+\.?\d+)\s*([^\d\s]{1,3})?` (subscription).
  We embed these two patterns by a deterministic backtracking matcher
  that reproduces Python's leftmost search and greedy quantifier
  semantics for exactly these patterns.

* `mongo_db_pricing.py` — the versioned pricing store (`PricingModel`
  with its pydantic validators, `insert_pricing`, `get_current_pricing`,
  `get_pricing_history`, `update_pricing`).  The MongoDB collection is
  embedded as an explicit list of documents plus a fresh-id counter;
  timestamps are UTC seconds since the epoch as `Nat`, so the source's
  `replace(minute=0, second=0, microsecond=0)` is flooring to a multiple
  of 3600.  Python floats are embedded as exact rationals: every numeric
  literal compared by the claims is a short decimal, and the code never
  performs arithmetic on them other than parsing.
-/

set_option maxRecDepth 4000

namespace IonityPrices

/-- Decidable equality of results, so that concrete runs of the embedded
functions can be checked by `decide`. -/
instance exceptDecEq {ε α : Type} [DecidableEq ε] [DecidableEq α] :
    DecidableEq (Except ε α)
  | Except.ok x, Except.ok y =>
    if h : x = y then Decidable.isTrue (congrArg Except.ok h)
    else Decidable.isFalse (fun hh => h (Except.ok.inj hh))
  | Except.ok _, Except.error _ => Decidable.isFalse (fun hh => Except.noConfusion hh)
  | Except.error _, Except.ok _ => Decidable.isFalse (fun hh => Except.noConfusion hh)
  | Except.error x, Except.error y =>
    if h : x = y then Decidable.isTrue (congrArg Except.error h)
    else Decidable.isFalse (fun hh => h (Except.error.inj hh))

/-! ## Money and subscription terms (ionity_scrape_helpers.py, lines 7-30) -/

/-- Money, a monetary amount with a currency (`Money` in
`ionity_scrape_helpers.py`). -/
structure Money where
  amount : ℚ
  currency : String
deriving DecidableEq, Repr

/-- SubscriptionTerms (`ionity_scrape_helpers.py`): at most one of the two
period fields is populated by the subscription extractor. -/
structure SubscriptionTerms where
  monthly_additional_price : Option Money
  yearly_additional_price : Option Money
deriving DecidableEq, Repr

/-! ## Character classes of the regular expressions

The inputs handled by the claims are ASCII text plus the currency signs;
`\d` is the decimal digits and `\s` the Python whitespace characters. -/

/-- Python regex `\d` on the inputs at hand: an ASCII decimal digit. -/
def isDigitCh (c : Char) : Bool := decide ('0' ≤ c ∧ c ≤ '9')

/-- Python regex `\s`: whitespace. -/
def isSpaceCh (c : Char) : Bool :=
  decide (c = ' ' ∨ c = '\t' ∨ c = '\n' ∨ c = '\r' ∨ c = '\x0b' ∨ c = '\x0c')

/-- The character class `[^\d\s]` used for the currency groups. -/
def isCurrencyCh (c : Char) : Bool := !isDigitCh c && !isSpaceCh c

/-- Maximal run of digits at the front of the input, with the rest. -/
def takeDigits (l : List Char) : List Char × List Char :=
  (l.takeWhile isDigitCh, l.dropWhile isDigitCh)

/-! ## The two numeric sub-patterns

`numA` matches `\d+\.?\d+` and `numB` matches `\d*,?\d+\.?\d+`, both with
Python's greedy backtracking; each returns the matched characters and the
remaining input, or `none` when no match starts at the given position. -/

/-- Greedy match of `\d+\.?\d+` at the start of the input.  The first
`\d+` is greedy but gives one digit back when no digit follows the
optional dot, so a pure digit run matches itself when it has at least two
digits, and `D1.D2` matches whenever a dot separates two digit runs. -/
def numA (l : List Char) : Option (List Char × List Char) :=
  let p := takeDigits l
  if p.1 = [] then none
  else
    match p.2 with
    | '.' :: r2 =>
      let q := takeDigits r2
      if q.1 ≠ [] then some (p.1 ++ '.' :: q.1, q.2)
      else if 2 ≤ p.1.length then some (p.1, p.2) else none
    | r =>
      if 2 ≤ p.1.length then some (p.1, r) else none

/-- One attempt of `\d*,?\d+\.?\d+` with the greedy `\d*` claiming the
first `k` characters of the digit run `d` (`rest` is the input after the
run): the optional comma is tried greedily, then the tail pattern
`\d+\.?\d+`. -/
def numBAttempt (d rest : List Char) (k : Nat) : Option (List Char × List Char) :=
  let pre := d.take k
  let tail := d.drop k ++ rest
  match tail with
  | ',' :: r2 =>
    match numA r2 with
    | some (n, r3) => some (pre ++ ',' :: n, r3)
    | none =>
      match numA tail with
      | some (n, r3) => some (pre ++ n, r3)
      | none => none
  | _ =>
    match numA tail with
    | some (n, r3) => some (pre ++ n, r3)
    | none => none

/-- Backtracking loop for `\d*,?\d+\.?\d+`: the greedy `\d*` is tried
from `d.length` characters down to zero; the first success wins. -/
def numBGo (d rest : List Char) : Nat → Option (List Char × List Char)
  | 0 => numBAttempt d rest 0
  | k + 1 =>
    match numBAttempt d rest (k + 1) with
    | some res => some res
    | none => numBGo d rest k

/-- Greedy match of `\d*,?\d+\.?\d+` at the start of the input. -/
def numB (l : List Char) : Option (List Char × List Char) :=
  let p := takeDigits l
  numBGo p.1 p.2 p.1.length

/-! ## The full pattern

`([^\d\s]{1,3})?\s*(NUM)\s*([^\d\s]{1,3})?` with `NUM` one of the two
numeric sub-patterns.  `\s*` needs no backtracking because whitespace is
disjoint from both the digit class and the currency class. -/

/-- The three capture groups of a successful match: optional leading
currency token, numeric amount, optional trailing currency token. -/
structure ReGroups where
  g1 : Option (List Char)
  g2 : List Char
  g3 : Option (List Char)
deriving DecidableEq, Repr

/-- Match `\s*(NUM)\s*([^\d\s]{1,3})?` at the start of the input,
returning groups 2 and 3.  The trailing optional group is greedy and
final, so it takes up to three currency characters outright. -/
def try_after_g1 (num : List Char → Option (List Char × List Char))
    (l : List Char) : Option (List Char × Option (List Char)) :=
  match num (l.dropWhile isSpaceCh) with
  | none => none
  | some (n, r) =>
    let r1 := r.dropWhile isSpaceCh
    let g3 := (r1.takeWhile isCurrencyCh).take 3
    some (n, if g3 = [] then none else some g3)

/-- Attempt the whole pattern at the start of the input with the leading
group taking exactly `k` currency characters. -/
def try_with_g1 (num : List Char → Option (List Char × List Char))
    (l : List Char) (k : Nat) : Option ReGroups :=
  let pre := l.take k
  if pre.length = k ∧ pre.all isCurrencyCh then
    match try_after_g1 num (l.drop k) with
    | some p => some ⟨some pre, p.1, p.2⟩
    | none => none
  else none

/-- Attempt the whole pattern at the start of the input.  The optional
leading group `([^\d\s]{1,3})?` is greedy: three characters are tried
first, then two, then one, then the group is left unmatched. -/
def match_at (num : List Char → Option (List Char × List Char))
    (l : List Char) : Option ReGroups :=
  match try_with_g1 num l 3 with
  | some g => some g
  | none =>
    match try_with_g1 num l 2 with
    | some g => some g
    | none =>
      match try_with_g1 num l 1 with
      | some g => some g
      | none =>
        match try_after_g1 num l with
        | some p => some ⟨none, p.1, p.2⟩
        | none => none

/-- `re.search`: the match attempt is made at every position from the
left; the first position admitting a match wins. -/
def re_search (num : List Char → Option (List Char × List Char)) :
    List Char → Option ReGroups
  | [] => none
  | c :: rest =>
    match match_at num (c :: rest) with
    | some g => some g
    | none => re_search num rest

/-! ## From matched text to numbers -/

/-- Value of a digit string. -/
def digitsToNat (l : List Char) : Nat :=
  l.foldl (fun a c => a * 10 + (c.toNat - '0'.toNat)) 0

/-- Python `float(s.replace(",", ""))` on the digit-and-dot strings the
two patterns can capture, as an exact rational. -/
def float_of_chars (l : List Char) : ℚ :=
  let l2 := l.filter (fun c => decide (c ≠ ','))
  let s := l2.span (fun c => decide (c ≠ '.'))
  match s.2 with
  | [] => (digitsToNat s.1 : ℚ)
  | _ :: fp => (digitsToNat s.1 : ℚ) + (digitsToNat fp : ℚ) / ((10 : ℚ) ^ fp.length)

/-! ## extract_amount_currency (ionity_scrape_helpers.py, lines 33-49) -/

/-- extract_amount_currency: strips a trailing `/kWh`, searches the
amount pattern, picks the leading currency group if present else the
trailing one, and parses the amount.  A missing match raises
`ValueError`; a match with neither currency group present makes the
`Money` construction fail pydantic validation (currency is `None`). -/
def extract_amount_currency (text : String) : Except String Money :=
  let l0 := text.data
  let l :=
    if 4 ≤ l0.length ∧ l0.drop (l0.length - 4) = ['/', 'k', 'W', 'h'] then
      l0.take (l0.length - 4)
    else l0
  match re_search numA l with
  | some g =>
    match (match g.g1 with | some c => some c | none => g.g3) with
    | some cur => Except.ok ⟨float_of_chars g.g2, String.mk cur⟩
    | none => Except.error "ValidationError: currency is None"
  | none => Except.error "Could not extract amount and currency"

/-! ## extract_subscription_price (ionity_scrape_helpers.py, lines 52-95) -/

/-- Python `str.lower` on the period strings at hand. -/
def py_lower (l : List Char) : List Char := l.map Char.toLower

/-- Python `str.strip`. -/
def py_strip (l : List Char) : List Char :=
  ((l.dropWhile isSpaceCh).reverse.dropWhile isSpaceCh).reverse

/-- extract_subscription_price: searches the subscription amount pattern
(which also admits one thousands comma), then dispatches on the
normalized period text; the currency is only used inside the period
branches, where a `None` currency would fail the `Money` construction. -/
def extract_subscription_price (amount_text period_text : String) :
    Except String SubscriptionTerms :=
  match re_search numB amount_text.data with
  | none => Except.error ("Could not extract subscription price from: " ++ amount_text)
  | some g =>
    let cur := match g.g1 with | some c => some c | none => g.g3
    let period := String.mk (py_strip (py_lower period_text.data))
    if period = "per year" then
      match cur with
      | some c => Except.ok ⟨none, some ⟨float_of_chars g.g2, String.mk c⟩⟩
      | none => Except.error "ValidationError: currency is None"
    else if period = "per month" then
      match cur with
      | some c => Except.ok ⟨some ⟨float_of_chars g.g2, String.mk c⟩, none⟩
      | none => Except.error "ValidationError: currency is None"
    else
      Except.error ("Invalid period_text: " ++ period_text)

example : extract_amount_currency "€7.99" = Except.ok ⟨799/100, "€"⟩ := by
  have h : float_of_chars ['7', '.', '9', '9'] = 799/100 := by
    show ((digitsToNat ['7'] : ℚ) + (digitsToNat ['9', '9'] : ℚ) / ((10 : ℚ) ^ (2 : Nat))) = 799/100
    rw [show digitsToNat ['7'] = 7 from by decide, show digitsToNat ['9', '9'] = 99 from by decide]
    norm_num
  show (Except.ok ⟨float_of_chars ['7', '.', '9', '9'], "€"⟩ : Except String Money) =
    Except.ok ⟨799/100, "€"⟩
  rw [h]
example : extract_amount_currency "7.99 SFR" = Except.ok ⟨799/100, "SFR"⟩ := by
  have h : float_of_chars ['7', '.', '9', '9'] = 799/100 := by
    show ((digitsToNat ['7'] : ℚ) + (digitsToNat ['9', '9'] : ℚ) / ((10 : ℚ) ^ (2 : Nat))) = 799/100
    rw [show digitsToNat ['7'] = 7 from by decide, show digitsToNat ['9', '9'] = 99 from by decide]
    norm_num
  show (Except.ok ⟨float_of_chars ['7', '.', '9', '9'], "SFR"⟩ : Except String Money) =
    Except.ok ⟨799/100, "SFR"⟩
  rw [h]
example : extract_amount_currency "43p" = Except.ok ⟨43, "p"⟩ := by
  have h : float_of_chars ['4', '3'] = 43 := by
    show ((digitsToNat ['4', '3'] : ℚ)) = 43
    rw [show digitsToNat ['4', '3'] = 43 from by decide]; norm_num
  show (Except.ok ⟨float_of_chars ['4', '3'], "p"⟩ : Except String Money) = Except.ok ⟨43, "p"⟩
  rw [h]
example : (extract_amount_currency "€5").toOption = none := by decide
example : (extract_amount_currency "5 CHF").toOption = none := by decide
example : extract_subscription_price "€11.99" "per year" =
    Except.ok ⟨none, some ⟨1199/100, "€"⟩⟩ := by
  have h : float_of_chars ['1', '1', '.', '9', '9'] = 1199/100 := by
    show ((digitsToNat ['1', '1'] : ℚ) + (digitsToNat ['9', '9'] : ℚ) / ((10 : ℚ) ^ (2 : Nat))) =
      1199/100
    rw [show digitsToNat ['1', '1'] = 11 from by decide,
      show digitsToNat ['9', '9'] = 99 from by decide]
    norm_num
  show (Except.ok ⟨none, some ⟨float_of_chars ['1', '1', '.', '9', '9'], "€"⟩⟩ :
    Except String SubscriptionTerms) = Except.ok ⟨none, some ⟨1199/100, "€"⟩⟩
  rw [h]
example : extract_subscription_price "47,200 HUF" "per year" =
    Except.ok ⟨none, some ⟨47200, "HUF"⟩⟩ := by
  have h : float_of_chars ['4', '7', ',', '2', '0', '0'] = 47200 := by
    show ((digitsToNat ['4', '7', '2', '0', '0'] : ℚ)) = 47200
    rw [show digitsToNat ['4', '7', '2', '0', '0'] = 47200 from by decide]; norm_num
  show (Except.ok ⟨none, some ⟨float_of_chars ['4', '7', ',', '2', '0', '0'], "HUF"⟩⟩ :
    Except String SubscriptionTerms) = Except.ok ⟨none, some ⟨47200, "HUF"⟩⟩
  rw [h]
example : extract_subscription_price "3,933 HUF" "per month" =
    Except.ok ⟨some ⟨3933, "HUF"⟩, none⟩ := by
  have h : float_of_chars ['3', ',', '9', '3', '3'] = 3933 := by
    show ((digitsToNat ['3', '9', '3', '3'] : ℚ)) = 3933
    rw [show digitsToNat ['3', '9', '3', '3'] = 3933 from by decide]; norm_num
  show (Except.ok ⟨some ⟨float_of_chars ['3', ',', '9', '3', '3'], "HUF"⟩, none⟩ :
    Except String SubscriptionTerms) = Except.ok ⟨some ⟨3933, "HUF"⟩, none⟩
  rw [h]
example : (extract_subscription_price "€11.99" "per week").toOption = none := by decide
example : (extract_subscription_price "without any fees" "per year").toOption = none := by decide
example : (extract_subscription_price "€5" "per year").toOption = none := by decide
example : (extract_subscription_price "5 CHF" "per month").toOption = none := by decide

/-! ## The pricing fact model (mongo_db_pricing.py, lines 10-146)

Timestamps are UTC seconds since the epoch, as `Nat`; document ids are
`Option Nat` (`none` on a candidate fact built by the collector, assigned
by the store on insertion).  Prices are exact rationals. -/

/-- PricingModel (`mongo_db_pricing.py`): one pricing fact with
validity-interval metadata and versioning. -/
structure PricingModel where
  country : String
  currency : String
  provider : String
  pricing_model_name : String
  price_kWh : ℚ
  monthly_subscription_price : Option ℚ
  yearly_subscription_price : Option ℚ
  initial_subscription_price : Option ℚ
  version : Nat
  id : Option Nat
  valid_to : Option Nat
  valid_from : Option Nat
deriving DecidableEq, Repr

/-- The `currency_country_map` of `check_currency_country_relationship`
(`mongo_db_pricing.py`, lines 105-143): `dict.get` is `Option`-valued. -/
def currency_country_map (currency : String) : Option (List String) :=
  if currency = "€" then
    some ["Germany", "France", "Italy", "Austria", "Spain", "Portugal",
      "Netherlands", "Belgium", "Luxembourg", "Ireland", "Finland",
      "Slovakia", "Hungary", "Greece", "Croatia", "Slovenia", "Estonia",
      "Latvia", "Lithuania", "Malta", "Cyprus", "TestCountry"]
  else if currency = "CHF" then some ["Switzerland"]
  else if currency = "DKR" then some ["Denmark"]
  else if currency = "NOK" then some ["Norway"]
  else if currency = "SEK" then some ["Sweden"]
  else if currency = "PLN" then some ["Poland"]
  else if currency = "USD" then some ["United States", "Canada"]
  else if currency = "£" then some ["United Kingdom"]
  else if currency = "CZK" then some ["Czech Republic"]
  else if currency = "HUF" then some ["Hungary"]
  else if currency = "RON" then some ["Romania"]
  else if currency = "BGN" then some ["Bulgaria"]
  else if currency = "HRK" then some ["Croatia"]
  else if currency = "ISK" then some ["Iceland"]
  else none

/-- The `@model_validator(mode="after")` check: the model is accepted
when `self.country in currency_country_map.get(self.currency, [self.country])`. -/
def check_currency_country_relationship (m : PricingModel) : Bool :=
  decide (m.country ∈ (currency_country_map m.currency).getD [m.country])

/-- Whether an optional subscription fee passes its `Field(None, ge=0)`
constraint. -/
def subscription_fee_ok : Option ℚ → Bool
  | none => true
  | some p => decide (0 ≤ p)

/-- Construction-time validation of a `PricingModel`: the pydantic field
constraints (`min_length`, `max_length`, `gt`, `ge`) in declaration
order, then the after-validator `check_currency_country_relationship`.
`Except.error` is pydantic's `ValidationError`. -/
def validate_pricing_model (m : PricingModel) : Except String PricingModel :=
  if m.country.length < 2 then Except.error "country shorter than 2"
  else if m.currency.length < 1 then Except.error "currency shorter than 1"
  else if 3 < m.currency.length then Except.error "currency longer than 3"
  else if m.price_kWh ≤ 0 then Except.error "price_kWh not greater than 0"
  else if subscription_fee_ok m.monthly_subscription_price = false then
    Except.error "monthly_subscription_price negative"
  else if subscription_fee_ok m.yearly_subscription_price = false then
    Except.error "yearly_subscription_price negative"
  else if subscription_fee_ok m.initial_subscription_price = false then
    Except.error "initial_subscription_price negative"
  else if m.version < 1 then Except.error "version below 1"
  else if check_currency_country_relationship m then Except.ok m
  else Except.error "currency not valid for country"

/-! ## The store (mongo_db_pricing.py, lines 149-232)

The MongoDB collection `db.pricing` is a list of documents in insertion
order plus a counter supplying fresh `ObjectId`s. -/

/-- The document store: `docs` is the collection in natural (insertion)
order, `nextId` the next fresh object id. -/
structure Store where
  docs : List PricingModel
  nextId : Nat
deriving DecidableEq, Repr

/-- `insert_one`: appends the document, with a fresh store-assigned id
(the stray `id` key in the dumped document is ignored by the alias
`_id` on re-validation, so the stored id is exactly the fresh one). -/
def insert_one (s : Store) (m : PricingModel) : Store :=
  ⟨s.docs ++ [{ m with id := some s.nextId }], s.nextId + 1⟩

/-- insert_pricing (lines 149-159): dumps the model and overrides
`valid_from` with `datetime.now(UTC)` — not floored — plus
`valid_to = None` and `version = 1`, then inserts. -/
def insert_pricing (s : Store) (m : PricingModel) (now : Nat) : Store :=
  insert_one s { m with valid_from := some now, valid_to := none, version := 1 }

/-- The natural-key part of the Mongo filters: the document matches
`(country, provider, pricing_model_name)`. -/
def key_matches (country provider pricing_model : String) (d : PricingModel) : Bool :=
  decide (d.country = country ∧ d.provider = provider ∧
    d.pricing_model_name = pricing_model)

/-- get_current_pricing (lines 162-177): `find_one` on the filter
`(country, provider, pricing_model_name, valid_to = None)`, i.e. the
first matching document in natural order. -/
def get_current_pricing (s : Store) (country provider pricing_model : String) :
    Option PricingModel :=
  s.docs.find? (fun d =>
    key_matches country provider pricing_model d && decide (d.valid_to = none))

/-- get_pricing_history (lines 180-194): all versions for the key, in
natural (insertion) order. -/
def get_pricing_history (s : Store) (country provider pricing_model : String) :
    List PricingModel :=
  s.docs.filter (key_matches country provider pricing_model)

/-- `model_dump(exclude=.x7bid, valid_from, version.x7d)`: the fields the
update comparison looks at — note that `valid_to` and the deprecated
`initial_subscription_price` are compared too. -/
structure DumpExcl where
  country : String
  currency : String
  provider : String
  pricing_model_name : String
  price_kWh : ℚ
  monthly_subscription_price : Option ℚ
  yearly_subscription_price : Option ℚ
  initial_subscription_price : Option ℚ
  valid_to : Option Nat
deriving DecidableEq, Repr

/-- The comparison key of `update_pricing` (lines 210-212). -/
def dump_excl (m : PricingModel) : DumpExcl :=
  ⟨m.country, m.currency, m.provider, m.pricing_model_name, m.price_kWh,
    m.monthly_subscription_price, m.yearly_subscription_price,
    m.initial_subscription_price, m.valid_to⟩

/-- `datetime.replace(minute=0, second=0, microsecond=0)` on a UTC
timestamp in seconds: floor to the hour. -/
def floor_to_hour (t : Nat) : Nat := t / 3600 * 3600

/-- `update_one` on the filter by object id with `$set valid_to := ts`:
at most the first matching document is updated, and `modified_count`
is 1 exactly when a document matched and its value actually changed. -/
def set_valid_to_first (i : Option Nat) (ts : Nat) :
    List PricingModel → List PricingModel × Nat
  | [] => ([], 0)
  | d :: ds =>
    if d.id = i then
      if d.valid_to = some ts then (d :: ds, 0)
      else ({ d with valid_to := some ts } :: ds, 1)
    else
      let r := set_valid_to_first i ts ds
      (d :: r.1, r.2)

/-- Outcome of `update_pricing`: printed no-op messages and the raised
`ValueError` are represented as result values. -/
inductive UpdateResult where
  | noCurrent
  | noChange
  | archiveFailed
  | updated
deriving DecidableEq, Repr

/-- Lines 216-232 of `update_pricing`: archive the current fact at the
hour-floored timestamp; raise (`archiveFailed`) when the archive write
modified nothing, in which case the new version is not inserted;
otherwise insert the successor with `version = current.version + 1`,
`valid_from` equal to the archive timestamp and `valid_to = None`. -/
def archive_and_insert (s : Store) (current new_data : PricingModel) (now : Nat) :
    UpdateResult × Store :=
  if (set_valid_to_first current.id (floor_to_hour now) s.docs).2 = 0 then
    (UpdateResult.archiveFailed,
      ⟨(set_valid_to_first current.id (floor_to_hour now) s.docs).1, s.nextId⟩)
  else
    (UpdateResult.updated,
      insert_one ⟨(set_valid_to_first current.id (floor_to_hour now) s.docs).1, s.nextId⟩
        { new_data with
            valid_from := some (floor_to_hour now)
            valid_to := none
            version := current.version + 1 })

/-- update_pricing (lines 197-232). -/
def update_pricing (s : Store) (new_data : PricingModel) (now : Nat) :
    UpdateResult × Store :=
  match get_current_pricing s new_data.country new_data.provider
      new_data.pricing_model_name with
  | none => (UpdateResult.noCurrent, s)
  | some current =>
    if dump_excl current = dump_excl new_data then (UpdateResult.noChange, s)
    else archive_and_insert s current new_data now

/-! ## Reachable stores

The claims quantify over stores produced by any sequence of insert and
update calls, with the spec's precondition that `insert` is only called
when no current fact exists for the key. -/

/-- Stores reachable from the empty collection by `insert_pricing`
(under its precondition) and `update_pricing`, at arbitrary times. -/
inductive Reachable : Store → Prop
  | empty : Reachable ⟨[], 0⟩
  | insert (s : Store) (m : PricingModel) (t : Nat) :
      Reachable s →
      get_current_pricing s m.country m.provider m.pricing_model_name = none →
      Reachable (insert_pricing s m t)
  | update (s : Store) (m : PricingModel) (t : Nat) :
      Reachable s → Reachable (update_pricing s m t).2

/-! ## Concrete fixtures

Small concrete stores and facts used by counterexamples and witnesses.
Prices are whole numbers of currency units so that all comparisons
evaluate by `decide`. -/

/-- A valid candidate fact as the collector hands it to the ledger. -/
def m_basic : PricingModel :=
  ⟨"Germany", "€", "Ionity", "Combi", 3, none, none, none, 1, none, none, none⟩

/-- The empty collection. -/
def s_empty : Store := ⟨[], 0⟩

/-- The store after inserting `m_basic` at time 100. -/
def s_one : Store := insert_pricing s_empty m_basic 100

/-- The stored current fact of `s_one`. -/
def c_basic : PricingModel :=
  { m_basic with valid_from := some 100, valid_to := none, version := 1, id := some 0 }

/-- A candidate agreeing with `c_basic` on every economically meaningful
field but carrying a deprecated `initial_subscription_price`. -/
def m_initial : PricingModel := { m_basic with initial_subscription_price := some 5 }

/-- A candidate with a changed price. -/
def m_newprice : PricingModel := { m_basic with price_kWh := 4 }

example : get_current_pricing s_one "Germany" "Ionity" "Combi" = some c_basic := by decide

/-! ## Claim C4 — insert effect -/

/-- C4 counterexample: `insert_pricing` does not floor `valid_from` to
the hour.  Inserting at UTC time 5400 (01:30) stores `valid_from =
5400`, while flooring to the hour would give 3600; the claim that
`validFrom` is the current UTC time floored to the hour is false. -/
theorem c4_counterexample :
    (insert_pricing s_empty m_basic 5400).docs.map PricingModel.valid_from = [some 5400] ∧
    floor_to_hour 5400 = 3600 ∧ some (5400 : Nat) ≠ some (floor_to_hour 5400) := by decide

/-- C4 (amended): for every fact, `insert_pricing` persists exactly one
new document whose version is 1, whose `valid_to` is null and whose
`valid_from` is the current UTC time, not floored to the hour. -/
theorem c4_insert_appends_one_current_v1 (s : Store) (m : PricingModel) (t : Nat) :
    ∃ d, (insert_pricing s m t).docs = s.docs ++ [d] ∧
      d.version = 1 ∧ d.valid_to = none ∧ d.valid_from = some t :=
  ⟨_, rfl, rfl, rfl, rfl⟩

/-! ## Claims C5 and C7 — construction-time validation -/

/-- A fact with both a monthly and a yearly subscription fee, mirroring
the source's own test `test_insert_pricing_with_both_periods`. -/
def m_both : PricingModel :=
  ⟨"TestCountry", "€", "TestProvider", "TestModelBothPeriods", 3,
    some 1, some 10, none, 1, none, none, none⟩

/-- C5 counterexample: constructing a fact with both a monthly and a
yearly subscription fee present does not fail validation — the model has
no mutual-exclusion validator, and `validate_pricing_model` accepts the
fact (as the source's own test expects). -/
theorem c5_counterexample :
    m_both.monthly_subscription_price = some 1 ∧
    m_both.yearly_subscription_price = some 10 ∧
    validate_pricing_model m_both = Except.ok m_both := by decide

/-- The after-field-validation behaviour of construction: once the field
constraints hold, acceptance is exactly the currency-country check. -/
theorem validate_ok_iff (m : PricingModel)
    (h1 : 2 ≤ m.country.length) (h2 : 1 ≤ m.currency.length)
    (h3 : m.currency.length ≤ 3) (h4 : 0 < m.price_kWh)
    (h5 : subscription_fee_ok m.monthly_subscription_price = true)
    (h6 : subscription_fee_ok m.yearly_subscription_price = true)
    (h7 : subscription_fee_ok m.initial_subscription_price = true)
    (h8 : 1 ≤ m.version) :
    validate_pricing_model m = Except.ok m ↔
      m.country ∈ (currency_country_map m.currency).getD [m.country] := by
  unfold validate_pricing_model
  rw [if_neg (by omega), if_neg (by omega), if_neg (by omega),
    if_neg (not_le.mpr h4), if_neg (by simp [h5]), if_neg (by simp [h6]),
    if_neg (by simp [h7]), if_neg (by omega)]
  unfold check_currency_country_relationship
  by_cases hm : m.country ∈ (currency_country_map m.currency).getD [m.country]
  · simp [hm]
  · simp [hm]

/-- C5 (amended): a fact with both a monthly and a yearly subscription
fee present passes validation whenever the ordinary field constraints
and the currency-country rule hold; no billing-cadence exclusivity is
enforced at construction time. -/
theorem c5_amended_both_fees_accepted (m : PricingModel) (mp yp : ℚ)
    (hmp : m.monthly_subscription_price = some mp)
    (hyp : m.yearly_subscription_price = some yp)
    (hmp0 : 0 ≤ mp) (hyp0 : 0 ≤ yp)
    (h1 : 2 ≤ m.country.length) (h2 : 1 ≤ m.currency.length)
    (h3 : m.currency.length ≤ 3) (h4 : 0 < m.price_kWh)
    (h7 : subscription_fee_ok m.initial_subscription_price = true)
    (h8 : 1 ≤ m.version)
    (hmem : m.country ∈ (currency_country_map m.currency).getD [m.country]) :
    validate_pricing_model m = Except.ok m := by
  have h5 : subscription_fee_ok m.monthly_subscription_price = true := by
    rw [hmp]; exact decide_eq_true hmp0
  have h6 : subscription_fee_ok m.yearly_subscription_price = true := by
    rw [hyp]; exact decide_eq_true hyp0
  exact (validate_ok_iff m h1 h2 h3 h4 h5 h6 h7 h8).mpr hmem

/-- C5 witness: the amended statement applied to the concrete fact
carrying both fees (monthly 1, yearly 10). -/
theorem c5_witness : validate_pricing_model m_both = Except.ok m_both :=
  c5_amended_both_fees_accepted m_both 1 10 rfl rfl (by decide) (by decide)
    (by decide) (by decide) (by decide) (by decide) (by decide) (by decide)
    (by decide)

/-- A fact pairing Switzerland with the euro sign. -/
def m_swiss : PricingModel :=
  ⟨"Switzerland", "€", "Ionity", "Power", 3, none, none, none, 1, none, none, none⟩

/-- C7: with the field constraints satisfied, construction fails
validation exactly when the currency appears in the fixed
currency-to-countries mapping and the country is not in that currency's
allowed set; a currency absent from the mapping is accepted for any
country. -/
theorem c7_currency_country_rejection (m : PricingModel)
    (h1 : 2 ≤ m.country.length) (h2 : 1 ≤ m.currency.length)
    (h3 : m.currency.length ≤ 3) (h4 : 0 < m.price_kWh)
    (h5 : subscription_fee_ok m.monthly_subscription_price = true)
    (h6 : subscription_fee_ok m.yearly_subscription_price = true)
    (h7 : subscription_fee_ok m.initial_subscription_price = true)
    (h8 : 1 ≤ m.version) :
    ((∃ allowed, currency_country_map m.currency = some allowed ∧
        m.country ∉ allowed) ↔ validate_pricing_model m ≠ Except.ok m) ∧
    (currency_country_map m.currency = none →
      validate_pricing_model m = Except.ok m) := by
  have hok := validate_ok_iff m h1 h2 h3 h4 h5 h6 h7 h8
  constructor
  · constructor
    · rintro ⟨allowed, ha, hnot⟩ hcontra
      rw [hok, ha] at hcontra
      exact hnot hcontra
    · intro hne
      cases hmap : currency_country_map m.currency with
      | none =>
        exfalso
        apply hne
        rw [hok, hmap]
        exact List.mem_singleton.mpr rfl
      | some allowed =>
        refine ⟨allowed, rfl, fun hmem => hne ?_⟩
        rw [hok, hmap]
        exact hmem
  · intro hmap
    rw [hok, hmap]
    exact List.mem_singleton.mpr rfl

/-- C7 witness: `country = "Switzerland"` with `currency = "€"` passes
all field constraints yet fails construction, by the theorem applied at
that concrete fact. -/
theorem c7_witness : validate_pricing_model m_swiss ≠ Except.ok m_swiss :=
  ((c7_currency_country_rejection m_swiss (by decide) (by decide) (by decide)
      (by decide) (by decide) (by decide) (by decide) (by decide)).1).mp
    ⟨["Germany", "France", "Italy", "Austria", "Spain", "Portugal",
      "Netherlands", "Belgium", "Luxembourg", "Ireland", "Finland",
      "Slovakia", "Hungary", "Greece", "Croatia", "Slovenia", "Estonia",
      "Latvia", "Lithuania", "Malta", "Cyprus", "TestCountry"],
      by decide, by decide⟩

/-! ## Claim C8 — update with no current fact -/

/-- C8: when no current fact exists for the key, `update_pricing` is a
soft no-op: it raises nothing, writes nothing, reports that there is
nothing to update, and leaves the store unchanged. -/
theorem c8_update_without_current_is_noop (s : Store) (d : PricingModel) (t : Nat)
    (h : get_current_pricing s d.country d.provider d.pricing_model_name = none) :
    update_pricing s d t = (UpdateResult.noCurrent, s) := by
  simp only [update_pricing, h]

/-- C8 witness: updating the empty store. -/
theorem c8_witness : update_pricing s_empty m_basic 50 = (UpdateResult.noCurrent, s_empty) :=
  c8_update_without_current_is_noop s_empty m_basic 50 rfl

/-! ## Claim C9 — the archive step of update -/

/-- When `update_one` modified nothing it also changed nothing. -/
theorem set_valid_to_first_of_modified_zero (i : Option Nat) (ts : Nat)
    (l : List PricingModel) (h : (set_valid_to_first i ts l).2 = 0) :
    (set_valid_to_first i ts l).1 = l := by
  induction l with
  | nil => rfl
  | cons d ds ih =>
    by_cases hid : d.id = i
    · by_cases hv : d.valid_to = some ts
      · simp [set_valid_to_first, hid, hv]
      · simp [set_valid_to_first, hid, hv] at h
    · simp only [set_valid_to_first, if_neg hid] at h ⊢
      rw [ih h]

/-- C9: once a current fact was found and the facts differ, the update
raises the concurrency error exactly when the archive write modified
zero documents, and in that case no new version is inserted — the store
is left exactly as it was. -/
theorem c9_concurrency_error_iff_archive_modified_zero
    (s : Store) (c d : PricingModel) (t : Nat)
    (hc : get_current_pricing s d.country d.provider d.pricing_model_name = some c)
    (hne : dump_excl c ≠ dump_excl d) :
    ((update_pricing s d t).1 = UpdateResult.archiveFailed ↔
      (set_valid_to_first c.id (floor_to_hour t) s.docs).2 = 0) ∧
    ((set_valid_to_first c.id (floor_to_hour t) s.docs).2 = 0 →
      (update_pricing s d t).2 = s) := by
  have hu : update_pricing s d t = archive_and_insert s c d t := by
    simp only [update_pricing, hc, if_neg hne]
  rw [hu]
  unfold archive_and_insert
  by_cases h0 : (set_valid_to_first c.id (floor_to_hour t) s.docs).2 = 0
  · rw [if_pos h0]
    refine ⟨⟨fun _ => h0, fun _ => rfl⟩, fun _ => ?_⟩
    show (⟨(set_valid_to_first c.id (floor_to_hour t) s.docs).1, s.nextId⟩ : Store) = s
    rw [set_valid_to_first_of_modified_zero _ _ _ h0]
  · rw [if_neg h0]
    exact ⟨⟨fun hh => absurd hh (by simp), fun hh => absurd hh h0⟩,
      fun hh => absurd hh h0⟩

/-- C9 witness: the theorem applied at the concrete store `s_one` with a
changed price; there the archive write modifies one document and no
error is raised. -/
theorem c9_witness :
    ((update_pricing s_one m_newprice 7300).1 = UpdateResult.archiveFailed ↔
      (set_valid_to_first c_basic.id (floor_to_hour 7300) s_one.docs).2 = 0) ∧
    ((set_valid_to_first c_basic.id (floor_to_hour 7300) s_one.docs).2 = 0 →
      (update_pricing s_one m_newprice 7300).2 = s_one) :=
  c9_concurrency_error_iff_archive_modified_zero s_one c_basic m_newprice 7300
    (by decide) (by decide)

/-! ## Claim C2 — the update comparison and idempotence -/

/-- C2 counterexample: a candidate fact that agrees with the stored
current fact on every economically meaningful field — currency, price
per kWh, monthly fee, yearly fee, country, provider, plan name — but
differs in the deprecated `initial_subscription_price` is *not* a no-op:
the update archives the current fact and writes a second document.  The
comparison excludes only `id`, `valid_from` and `version`, so it also
compares `valid_to` and `initial_subscription_price`, more than the
seven fields the claim lists. -/
theorem c2_counterexample :
    (m_initial.currency = c_basic.currency ∧
     m_initial.price_kWh = c_basic.price_kWh ∧
     m_initial.monthly_subscription_price = c_basic.monthly_subscription_price ∧
     m_initial.yearly_subscription_price = c_basic.yearly_subscription_price ∧
     m_initial.country = c_basic.country ∧
     m_initial.provider = c_basic.provider ∧
     m_initial.pricing_model_name = c_basic.pricing_model_name) ∧
    get_current_pricing s_one m_initial.country m_initial.provider
      m_initial.pricing_model_name = some c_basic ∧
    (update_pricing s_one m_initial 7200).1 = UpdateResult.updated ∧
    (update_pricing s_one m_initial 7200).2.docs.length = 2 := by decide

/-- C2 (amended): update is a no-op exactly on full agreement of the
dump excluding `id`, `valid_from` and `version` — which also includes
`valid_to` and the deprecated `initial_subscription_price`.  When those
dumps agree, nothing is written, the result reports no change, and
repeating the call any number of times leaves the store unchanged. -/
theorem c2_amended_noop_iff_full_dump_equal (s : Store) (c d : PricingModel) (t : Nat)
    (hc : get_current_pricing s d.country d.provider d.pricing_model_name = some c)
    (heq : dump_excl c = dump_excl d) :
    update_pricing s d t = (UpdateResult.noChange, s) ∧
    ∀ n : Nat, (fun st => (update_pricing st d t).2)^[n] s = s := by
  have h1 : update_pricing s d t = (UpdateResult.noChange, s) := by
    simp only [update_pricing, hc, if_pos heq]
  refine ⟨h1, fun n => ?_⟩
  induction n with
  | zero => rfl
  | succ k ih =>
    rw [Function.iterate_succ_apply]
    show (fun st => (update_pricing st d t).2)^[k] (update_pricing s d t).2 = s
    rw [h1]
    exact ih

/-- C2 witness: the amended statement at the concrete store `s_one` with
an economically identical candidate, iterated three times. -/
theorem c2_witness :
    update_pricing s_one m_basic 7200 = (UpdateResult.noChange, s_one) ∧
    (fun st => (update_pricing st m_basic 7200).2)^[3] s_one = s_one :=
  ⟨(c2_amended_noop_iff_full_dump_equal s_one c_basic m_basic 7200
      (by decide) (by decide)).1,
   (c2_amended_noop_iff_full_dump_equal s_one c_basic m_basic 7200
      (by decide) (by decide)).2 3⟩

/-! ## Claim C6 — the money parser round-trips -/

/-- C6: evaluation of `extract_amount_currency` at the claimed
round-trip inputs.  The first round-trip holds: the `/kWh` suffix is
stripped and `"0.39 €/kWh"` parses to 0.39 €.  The second and third
fail: the source has no pence handling at all, so `"43p"` parses to
`Money(43.0, "p")` (not `Money(0.43, "£")` as the source's own test
`test_extract_amount_currency_pence` asserts) — and its regex cannot put
a comma inside the amount group, so `"47,200 HUF"` parses to
`Money(47.0, ",")` rather than `Money(47200.0, "HUF")`. -/
theorem c6_parser_round_trips_diverge :
    extract_amount_currency "0.39 €/kWh" = Except.ok ⟨39/100, "€"⟩ ∧
    extract_amount_currency "43p" = Except.ok ⟨43, "p"⟩ ∧
    extract_amount_currency "43p" ≠ Except.ok ⟨43/100, "£"⟩ ∧
    extract_amount_currency "47,200 HUF" = Except.ok ⟨47, ","⟩ ∧
    extract_amount_currency "47,200 HUF" ≠ Except.ok ⟨47200, "HUF"⟩ := by
  have h039 : extract_amount_currency "0.39 €/kWh" = Except.ok ⟨39/100, "€"⟩ := by
    have h : float_of_chars ['0', '.', '3', '9'] = 39/100 := by
      show ((digitsToNat ['0'] : ℚ) + (digitsToNat ['3', '9'] : ℚ) /
        ((10 : ℚ) ^ (2 : Nat))) = 39/100
      rw [show digitsToNat ['0'] = 0 from by decide,
        show digitsToNat ['3', '9'] = 39 from by decide]
      norm_num
    show (Except.ok ⟨float_of_chars ['0', '.', '3', '9'], "€"⟩ : Except String Money) =
      Except.ok ⟨39/100, "€"⟩
    rw [h]
  have h43 : extract_amount_currency "43p" = Except.ok ⟨43, "p"⟩ := by
    have h : float_of_chars ['4', '3'] = 43 := by
      show ((digitsToNat ['4', '3'] : ℚ)) = 43
      rw [show digitsToNat ['4', '3'] = 43 from by decide]; norm_num
    show (Except.ok ⟨float_of_chars ['4', '3'], "p"⟩ : Except String Money) =
      Except.ok ⟨43, "p"⟩
    rw [h]
  have h47 : extract_amount_currency "47,200 HUF" = Except.ok ⟨47, ","⟩ := by
    have h : float_of_chars ['4', '7'] = 47 := by
      show ((digitsToNat ['4', '7'] : ℚ)) = 47
      rw [show digitsToNat ['4', '7'] = 47 from by decide]; norm_num
    show (Except.ok ⟨float_of_chars ['4', '7'], ","⟩ : Except String Money) =
      Except.ok ⟨47, ","⟩
    rw [h]
  refine ⟨h039, h43, fun hcon => ?_, h47, fun hcon => ?_⟩
  · rw [h43] at hcon
    have hcur := congrArg
      (fun x : Except String Money =>
        match x with | Except.ok m => m.currency | Except.error _ => "") hcon
    exact absurd hcur (by decide)
  · rw [h47] at hcon
    have hcur := congrArg
      (fun x : Except String Money =>
        match x with | Except.ok m => m.currency | Except.error _ => "") hcon
    exact absurd hcur (by decide)

/-! ## Claim C10 — both patterns need two digits -/

/-- C10: both numeric patterns require at least two digit characters in
the amount, so the single-digit inputs `"€5"` and `"5 CHF"` — though
they contain a well-formed amount — make both extractors raise instead
of returning the amount. -/
theorem c10_single_digit_amounts_rejected :
    ('5' ∈ "€5".data ∧ '5' ∈ "5 CHF".data) ∧
    extract_amount_currency "€5" =
      Except.error "Could not extract amount and currency" ∧
    extract_amount_currency "5 CHF" =
      Except.error "Could not extract amount and currency" ∧
    extract_subscription_price "€5" "per year" =
      Except.error ("Could not extract subscription price from: " ++ "€5") ∧
    extract_subscription_price "5 CHF" "per month" =
      Except.error ("Could not extract subscription price from: " ++ "5 CHF") := by
  decide

/-! ## The store invariant

For claims C1 and C3 we prove an invariant of every reachable store: the
per-key history, in natural order, is a chain of versions `1, 2, …, n`
in which exactly the last fact is current and each archived fact's
`valid_to` equals its successor's `valid_from`; and document ids are
pairwise distinct and below the fresh-id counter. -/

/-- The history chain shape, starting at version `n`: empty, or a single
current fact of version `n`, or an archived version-`n` head whose
`valid_to` equals the next fact's `valid_from`, followed by a chain from
`n + 1`. -/
def ChainF : Nat → List PricingModel → Prop
  | _, [] => True
  | n, [d] => d.version = n ∧ d.valid_to = none
  | n, d :: e :: rest =>
    d.version = n ∧ d.valid_to ≠ none ∧ d.valid_to = e.valid_from ∧
      ChainF (n + 1) (e :: rest)

/-- Ids in the store are all assigned, pairwise distinct and below the
fresh-id counter. -/
def IdsOk (s : Store) : Prop :=
  (∀ oid ∈ s.docs.map PricingModel.id, ∃ i, oid = some i ∧ i < s.nextId) ∧
  (s.docs.map PricingModel.id).Nodup

/-- The reachable-store invariant. -/
def Inv (s : Store) : Prop :=
  IdsOk s ∧ ∀ country provider pricing_model,
    ChainF 1 (get_pricing_history s country provider pricing_model)

theorem chainF_no_current_nil (n : Nat) (h : List PricingModel)
    (hc : ChainF n h) (hno : ∀ d ∈ h, d.valid_to ≠ none) : h = [] := by
  induction h generalizing n with
  | nil => rfl
  | cons d t ih =>
    cases t with
    | nil => exact absurd hc.2 (hno d (List.mem_singleton.mpr rfl))
    | cons e rest =>
      have htail : ChainF (n + 1) (e :: rest) := hc.2.2.2
      have : e :: rest = [] :=
        ih (n + 1) htail (fun x hx => hno x (List.mem_cons_of_mem d hx))
      exact absurd this (by simp)

theorem chainF_current_last (n : Nat) (h1 h2 : List PricingModel)
    (c : PricingModel) (hc : ChainF n (h1 ++ c :: h2))
    (hcur : c.valid_to = none) : h2 = [] := by
  induction h1 generalizing n with
  | nil =>
    cases h2 with
    | nil => rfl
    | cons e rest => exact absurd hcur hc.2.1
  | cons x xs ih =>
    have hne : xs ++ c :: h2 ≠ [] := by simp
    obtain ⟨e, rest, hx⟩ := List.exists_cons_of_ne_nil hne
    rw [List.cons_append, hx] at hc
    have htail : ChainF (n + 1) (e :: rest) := hc.2.2.2
    rw [← hx] at htail
    exact ih (n + 1) htail

theorem chainF_filter_current (n : Nat) (h : List PricingModel) (hc : ChainF n h) :
    (h.filter (fun d => decide (d.valid_to = none))).length ≤ 1 := by
  induction h generalizing n with
  | nil => simp
  | cons d t ih =>
    cases t with
    | nil => exact le_trans (List.length_filter_le _ _) (by simp)
    | cons e rest =>
      have hd : d.valid_to ≠ none := hc.2.1
      have hfd : (decide (d.valid_to = none)) = false := by simp [hd]
      rw [List.filter_cons_of_neg (by simp [hfd])]
      exact ih (n + 1) hc.2.2.2

theorem chainF_version_get (n : Nat) (h : List PricingModel) (hc : ChainF n h)
    (i : Nat) (hi : i < h.length) : (h.get ⟨i, hi⟩).version = n + i := by
  induction h generalizing n i with
  | nil => simp at hi
  | cons d t ih =>
    cases i with
    | zero =>
      cases t with
      | nil => simpa using hc.1
      | cons e rest => simpa using hc.1
    | succ j =>
      cases t with
      | nil => simp at hi
      | cons e rest =>
        have hj : j < (e :: rest).length := by simpa using hi
        have := ih (n + 1) hc.2.2.2 j hj
        simpa [Nat.add_assoc, Nat.add_comm 1 j] using this

theorem chainF_contiguity_get (n : Nat) (h : List PricingModel) (hc : ChainF n h)
    (i : Nat) (hi : i + 1 < h.length) :
    (h.get ⟨i, by omega⟩).valid_to = (h.get ⟨i + 1, hi⟩).valid_from := by
  induction h generalizing n i with
  | nil => simp at hi
  | cons d t ih =>
    cases t with
    | nil => simp at hi
    | cons e rest =>
      cases i with
      | zero => simpa using hc.2.2.1
      | succ j =>
        have hj : j + 1 < (e :: rest).length := by simpa using hi
        have := ih (n + 1) hc.2.2.2 j hj
        simpa using this

theorem chainF_archive_append (n : Nat) (h1 : List PricingModel)
    (c nd : PricingModel) (ts : Nat) (hc : ChainF n (h1 ++ [c]))
    (hnv : nd.version = c.version + 1) (hnf : nd.valid_from = some ts)
    (hnt : nd.valid_to = none) :
    ChainF n (h1 ++ [{ c with valid_to := some ts }, nd]) := by
  induction h1 generalizing n with
  | nil =>
    refine ⟨hc.1, by simp, by simp [hnf], hnv.trans (by rw [hc.1]), hnt⟩
  | cons x xs ih =>
    cases xs with
    | nil =>
      exact ⟨hc.1, hc.2.1, hc.2.2.1, ih (n + 1) hc.2.2.2⟩
    | cons y ys =>
      exact ⟨hc.1, hc.2.1, hc.2.2.1, ih (n + 1) hc.2.2.2⟩

/-- Evaluation of the archive write when the target document is present
and no earlier document carries its id: exactly that document's
`valid_to` is set and the modified count is 1. -/
theorem set_valid_to_first_spec (l1 l2 : List PricingModel) (c : PricingModel)
    (ts : Nat) (hl1 : ∀ x ∈ l1, x.id ≠ c.id) (hcv : c.valid_to ≠ some ts) :
    set_valid_to_first c.id ts (l1 ++ c :: l2) =
      (l1 ++ { c with valid_to := some ts } :: l2, 1) := by
  induction l1 with
  | nil =>
    simp [set_valid_to_first, hcv]
  | cons x xs ih =>
    have hx : x.id ≠ c.id := hl1 x (List.mem_cons_self x xs)
    have hrec := ih (fun y hy => hl1 y (List.mem_cons_of_mem x hy))
    have hstep : set_valid_to_first c.id ts ((x :: xs) ++ c :: l2) =
        (x :: (set_valid_to_first c.id ts (xs ++ c :: l2)).1,
          (set_valid_to_first c.id ts (xs ++ c :: l2)).2) := by
      simp [set_valid_to_first, hx]
    rw [hstep, hrec]
    rfl

/-- Structure updates that do not touch the key fields leave
`key_matches` unchanged. -/
theorem key_matches_set_valid_to (country provider pricing_model : String)
    (c : PricingModel) (v : Option Nat) :
    key_matches country provider pricing_model { c with valid_to := v } =
      key_matches country provider pricing_model c := rfl

/-- Characterization of one changed-fact update step, for stores whose
ids are sound: the store decomposes around the (unique) current fact,
and the update archives exactly that fact at the floored timestamp and
appends the successor with a fresh id. -/
theorem update_step_spec (s : Store) (c d : PricingModel) (t : Nat)
    (hids : IdsOk s)
    (hc : get_current_pricing s d.country d.provider d.pricing_model_name = some c)
    (hne : dump_excl c ≠ dump_excl d) :
    ∃ l1 l2,
      s.docs = l1 ++ c :: l2 ∧
      key_matches d.country d.provider d.pricing_model_name c = true ∧
      c.valid_to = none ∧
      (∀ x ∈ l1, x.id ≠ c.id) ∧
      update_pricing s d t =
        (UpdateResult.updated,
          ⟨(l1 ++ { c with valid_to := some (floor_to_hour t) } :: l2) ++
            [{ d with
                version := c.version + 1
                id := some s.nextId
                valid_to := none
                valid_from := some (floor_to_hour t) }], s.nextId + 1⟩) := by
  have hmem : c ∈ s.docs := List.mem_of_find?_eq_some hc
  have hpred := List.find?_some hc
  rw [Bool.and_eq_true] at hpred
  have hkey : key_matches d.country d.provider d.pricing_model_name c = true :=
    hpred.1
  have hcur : c.valid_to = none := of_decide_eq_true hpred.2
  obtain ⟨l1, l2, hsplit⟩ := List.append_of_mem hmem
  have hnodup := hids.2
  rw [hsplit, List.map_append, List.map_cons] at hnodup
  have hnotmem : c.id ∉ l1.map PricingModel.id := by
    intro hmem1
    exact (List.nodup_cons.mp (List.nodup_middle.mp hnodup)).1
      (List.mem_append_left _ hmem1)
  have hl1 : ∀ x ∈ l1, x.id ≠ c.id := by
    intro x hx heq
    exact hnotmem (heq ▸ List.mem_map_of_mem PricingModel.id hx)
  have hts : c.valid_to ≠ some (floor_to_hour t) := by
    rw [hcur]; exact fun hcontra => Option.noConfusion hcontra
  have hset := set_valid_to_first_spec l1 l2 c (floor_to_hour t) hl1 hts
  refine ⟨l1, l2, hsplit, hkey, hcur, hl1, ?_⟩
  simp only [update_pricing, hc, if_neg hne]
  unfold archive_and_insert
  rw [hsplit, hset]
  rfl

/-- Appending a document carrying the fresh id and bumping the counter
preserves id soundness. -/
theorem idsOk_append_fresh (docs : List PricingModel) (nextId : Nat)
    (nd : PricingModel) (h : IdsOk ⟨docs, nextId⟩) (hnd : nd.id = some nextId) :
    IdsOk ⟨docs ++ [nd], nextId + 1⟩ := by
  obtain ⟨hbound, hnodup⟩ := h
  constructor
  · intro oid hmem
    rw [List.map_append] at hmem
    rcases List.mem_append.mp hmem with h1 | h2
    · obtain ⟨i, hi, hlt⟩ := hbound oid h1
      exact ⟨i, hi, Nat.lt_succ_of_lt hlt⟩
    · simp only [List.map_cons, List.map_nil, List.mem_singleton] at h2
      exact ⟨nextId, by rw [h2, hnd], Nat.lt_succ_self _⟩
  · rw [List.map_append]
    refine List.Nodup.append hnodup (by simp) ?_
    intro a ha hb
    simp only [List.map_cons, List.map_nil, List.mem_singleton] at hb
    obtain ⟨i, hi, hlt⟩ := hbound a ha
    rw [hb, hnd] at hi
    have heq1 : nextId = i := Option.some.inj hi
    have heq2 : i < nextId := hlt
    omega

/-- Id soundness only depends on the list of ids. -/
theorem idsOk_congr_map (docs docs2 : List PricingModel) (nextId : Nat)
    (h : IdsOk ⟨docs, nextId⟩)
    (heq : docs2.map PricingModel.id = docs.map PricingModel.id) :
    IdsOk ⟨docs2, nextId⟩ := by
  obtain ⟨hbound, hnodup⟩ := h
  exact ⟨fun oid hmem => hbound oid (heq ▸ hmem), heq ▸ hnodup⟩

/-- Two facts with the same natural key match the same key filters. -/
theorem key_matches_congr (co pr pm : String) (c d : PricingModel)
    (hcd : key_matches d.country d.provider d.pricing_model_name c = true) :
    key_matches co pr pm c = key_matches co pr pm d := by
  have h := of_decide_eq_true hcd
  unfold key_matches
  rw [h.1, h.2.1, h.2.2]

/-- The shape of the store after an insert. -/
theorem insert_pricing_docs (s : Store) (m : PricingModel) (t : Nat) :
    (insert_pricing s m t).docs =
      s.docs ++ [{ m with version := 1, id := some s.nextId, valid_to := none, valid_from := some t }] := rfl

/-- Inserting under the spec's precondition preserves the invariant. -/
theorem inv_insert (s : Store) (m : PricingModel) (t : Nat) (hinv : Inv s)
    (hno : get_current_pricing s m.country m.provider m.pricing_model_name = none) :
    Inv (insert_pricing s m t) := by
  obtain ⟨hids, hchain⟩ := hinv
  constructor
  · exact idsOk_append_fresh s.docs s.nextId _ hids rfl
  · intro co pr pm
    show ChainF 1 (get_pricing_history (insert_pricing s m t) co pr pm)
    unfold get_pricing_history
    rw [insert_pricing_docs, List.filter_append]
    by_cases hk : key_matches co pr pm { m with version := 1, id := some s.nextId, valid_to := none, valid_from := some t } = true
    · have hkm := of_decide_eq_true hk
      have hkey : m.country = co ∧ m.provider = pr ∧ m.pricing_model_name = pm := hkm
      have hempty : s.docs.filter (key_matches co pr pm) = [] := by
        apply chainF_no_current_nil 1 _ (hchain co pr pm)
        intro x hx hxcur
        have hx2 := List.mem_filter.mp hx
        have hxkey := of_decide_eq_true hx2.2
        have : (fun d => key_matches m.country m.provider m.pricing_model_name d &&
            decide (d.valid_to = none)) x = true := by
          rw [Bool.and_eq_true]
          refine ⟨decide_eq_true ?_, decide_eq_true hxcur⟩
          exact ⟨by rw [hxkey.1, hkey.1], by rw [hxkey.2.1, hkey.2.1],
            by rw [hxkey.2.2, hkey.2.2]⟩
        exact absurd this (List.find?_eq_none.mp hno x hx2.1)
      rw [hempty, List.filter_cons_of_pos hk, List.filter_nil, List.nil_append]
      exact ⟨rfl, rfl⟩
    · rw [List.filter_cons_of_neg (by simpa using hk), List.filter_nil,
        List.append_nil]
      exact hchain co pr pm

/-- An update preserves the invariant. -/
theorem inv_update (s : Store) (d : PricingModel) (t : Nat) (hinv : Inv s) :
    Inv (update_pricing s d t).2 := by
  rcases hcc : get_current_pricing s d.country d.provider d.pricing_model_name
    with _ | c
  · have hres : update_pricing s d t = (UpdateResult.noCurrent, s) := by
      simp only [update_pricing, hcc]
    rw [hres]; exact hinv
  · by_cases heq : dump_excl c = dump_excl d
    · have hres : update_pricing s d t = (UpdateResult.noChange, s) := by
        simp only [update_pricing, hcc, if_pos heq]
      rw [hres]; exact hinv
    · obtain ⟨l1, l2, hsplit, hkey, hcur, hl1, hupd⟩ :=
        update_step_spec s c d t hinv.1 hcc heq
      rw [hupd]
      obtain ⟨hids, hchain⟩ := hinv
      have hmapmid : (l1 ++ { c with valid_to := some (floor_to_hour t) } :: l2).map
          PricingModel.id = s.docs.map PricingModel.id := by
        rw [hsplit, List.map_append, List.map_append, List.map_cons, List.map_cons]
      constructor
      · exact idsOk_append_fresh _ s.nextId _
          (idsOk_congr_map s.docs _ s.nextId hids hmapmid) rfl
      · intro co pr pm
        have hck : key_matches co pr pm c = key_matches co pr pm d :=
          key_matches_congr co pr pm c d hkey
        have hold := hchain co pr pm
        unfold get_pricing_history at hold
        rw [hsplit, List.filter_append, List.filter_cons] at hold
        show ChainF 1 ((((l1 ++ { c with valid_to := some (floor_to_hour t) } :: l2) ++ [{ d with version := c.version + 1, id := some s.nextId, valid_to := none, valid_from := some (floor_to_hour t) }]).filter (key_matches co pr pm)))
        rw [List.filter_append, List.filter_append, List.filter_cons,
          List.filter_cons, List.filter_nil]
        by_cases hk : key_matches co pr pm d = true
        · have hkc : key_matches co pr pm c = true := by rw [hck]; exact hk
          have hkc2 : key_matches co pr pm { c with valid_to := some (floor_to_hour t) } = true := hkc
          have hknd : key_matches co pr pm { d with version := c.version + 1, id := some s.nextId, valid_to := none, valid_from := some (floor_to_hour t) } = true := hk
          rw [if_pos hkc] at hold
          rw [if_pos hkc2, if_pos hknd]
          have hFl2 : l2.filter (key_matches co pr pm) = [] :=
            chainF_current_last 1 _ _ c hold hcur
          rw [hFl2] at hold ⊢
          have := chainF_archive_append 1 (l1.filter (key_matches co pr pm)) c { d with version := c.version + 1, id := some s.nextId, valid_to := none, valid_from := some (floor_to_hour t) } (floor_to_hour t) hold rfl rfl rfl
          simpa [List.append_assoc] using this
        · have hkc : ¬ (key_matches co pr pm c = true) := by rw [hck]; exact hk
          have hkc2 : ¬ (key_matches co pr pm { c with valid_to := some (floor_to_hour t) } = true) := hkc
          have hknd : ¬ (key_matches co pr pm { d with version := c.version + 1, id := some s.nextId, valid_to := none, valid_from := some (floor_to_hour t) } = true) := hk
          rw [if_neg hkc] at hold
          rw [if_neg hkc2, if_neg hknd, List.append_nil]
          exact hold

/-- The invariant holds in every reachable store. -/
theorem inv_reachable (s : Store) (h : Reachable s) : Inv s := by
  induction h with
  | empty =>
    refine ⟨⟨fun oid hmem => absurd hmem (by simp), by simp⟩, fun co pr pm => ?_⟩
    exact trivial
  | insert s m t hr hno ih => exact inv_insert s m t ih hno
  | update s m t hr ih => exact inv_update s m t ih

/-! ## Claims C1 and C3 -/

/-- C1: after any sequence of insert calls (made only when no current
fact exists for the key, as the spec requires) and update calls, every
natural key has at most one stored fact with `valid_to = null`. -/
theorem c1_at_most_one_current (s : Store) (hs : Reachable s)
    (country provider pricing_model : String) :
    ((get_pricing_history s country provider pricing_model).filter
      (fun d => decide (d.valid_to = none))).length ≤ 1 :=
  chainF_filter_current 1 _ ((inv_reachable s hs).2 country provider pricing_model)

/-- The one-insert store is reachable. -/
theorem reach_s_one : Reachable s_one :=
  Reachable.insert s_empty m_basic 100 Reachable.empty rfl

/-- C1 witness: the single-current bound at the concrete reachable store
`s_one`. -/
theorem c1_witness :
    ((get_pricing_history s_one "Germany" "Ionity" "Combi").filter
      (fun d => decide (d.valid_to = none))).length ≤ 1 :=
  c1_at_most_one_current s_one reach_s_one "Germany" "Ionity" "Combi"

/-- C3: in any reachable store, (a) updating a key whose current fact
differs from the new fact on the compared fields archives the current
fact by setting its `valid_to` to now floored to the hour and appends a
successor with `version + 1`, `valid_from` equal to that same floored
timestamp and `valid_to = null`; and (b) for every key, any two facts of
consecutive versions satisfy `archived.valid_to = successor.valid_from`. -/
theorem c3_update_archives_and_history_contiguous (s : Store) (hs : Reachable s) :
    (∀ (d c : PricingModel) (t : Nat),
      get_current_pricing s d.country d.provider d.pricing_model_name = some c →
      dump_excl c ≠ dump_excl d →
      ∃ h1, get_pricing_history s d.country d.provider d.pricing_model_name = h1 ++ [c] ∧
        (update_pricing s d t).1 = UpdateResult.updated ∧
        get_pricing_history (update_pricing s d t).2 d.country d.provider
            d.pricing_model_name =
          h1 ++ [{ c with valid_to := some (floor_to_hour t) }, { d with version := c.version + 1, id := some s.nextId, valid_to := none, valid_from := some (floor_to_hour t) }]) ∧
    (∀ (country provider pricing_model : String) (d1 d2 : PricingModel),
      d1 ∈ get_pricing_history s country provider pricing_model →
      d2 ∈ get_pricing_history s country provider pricing_model →
      d2.version = d1.version + 1 →
      d1.valid_to = d2.valid_from) := by
  have hinv := inv_reachable s hs
  constructor
  · intro d c t hc hne
    obtain ⟨l1, l2, hsplit, hkey, hcur, hl1, hupd⟩ :=
      update_step_spec s c d t hinv.1 hc hne
    have holdh : get_pricing_history s d.country d.provider d.pricing_model_name =
        l1.filter (key_matches d.country d.provider d.pricing_model_name) ++
          c :: l2.filter (key_matches d.country d.provider d.pricing_model_name) := by
      unfold get_pricing_history
      rw [hsplit, List.filter_append, List.filter_cons_of_pos hkey]
    have hchain := hinv.2 d.country d.provider d.pricing_model_name
    rw [holdh] at hchain
    have hFl2 : l2.filter (key_matches d.country d.provider d.pricing_model_name) = [] :=
      chainF_current_last 1 _ _ c hchain hcur
    refine ⟨l1.filter (key_matches d.country d.provider d.pricing_model_name),
      ?_, ?_, ?_⟩
    · rw [holdh, hFl2]
    · rw [hupd]
    · rw [hupd]
      have hkc2 : key_matches d.country d.provider d.pricing_model_name { c with valid_to := some (floor_to_hour t) } = true := hkey
      have hknd : key_matches d.country d.provider d.pricing_model_name { d with version := c.version + 1, id := some s.nextId, valid_to := none, valid_from := some (floor_to_hour t) } = true :=
        decide_eq_true ⟨rfl, rfl, rfl⟩
      show ((l1 ++ { c with valid_to := some (floor_to_hour t) } :: l2) ++ [{ d with version := c.version + 1, id := some s.nextId, valid_to := none, valid_from := some (floor_to_hour t) }]).filter (key_matches d.country d.provider d.pricing_model_name) = _
      rw [List.filter_append, List.filter_append, List.filter_cons_of_pos hkc2,
        List.filter_cons_of_pos hknd, List.filter_nil, hFl2]
      simp [List.append_assoc]
  · intro co pr pm d1 d2 h1 h2 hv
    have hchain := hinv.2 co pr pm
    obtain ⟨⟨i1, hi1⟩, hg1⟩ := List.mem_iff_get.mp h1
    obtain ⟨⟨i2, hi2⟩, hg2⟩ := List.mem_iff_get.mp h2
    have hv1 := chainF_version_get 1 _ hchain i1 hi1
    have hv2 := chainF_version_get 1 _ hchain i2 hi2
    rw [hg1] at hv1
    rw [hg2] at hv2
    have hidx : i2 = i1 + 1 := by omega
    subst hidx
    have hcont := chainF_contiguity_get 1 _ hchain i1 hi2
    rw [hg1] at hcont
    rw [show (get_pricing_history s co pr pm).get ⟨i1 + 1, hi2⟩ = d2 from hg2] at hcont
    exact hcont

/-- C3 witness: the theorem applied at the concrete reachable store
`s_one` with a price change at time 7300 (floored to 7200). -/
theorem c3_witness :
    ∃ h1, get_pricing_history s_one m_newprice.country m_newprice.provider
        m_newprice.pricing_model_name = h1 ++ [c_basic] ∧
      (update_pricing s_one m_newprice 7300).1 = UpdateResult.updated ∧
      get_pricing_history (update_pricing s_one m_newprice 7300).2
          m_newprice.country m_newprice.provider m_newprice.pricing_model_name =
        h1 ++ [{ c_basic with valid_to := some (floor_to_hour 7300) }, { m_newprice with version := c_basic.version + 1, id := some s_one.nextId, valid_to := none, valid_from := some (floor_to_hour 7300) }] :=
  (c3_update_archives_and_history_contiguous s_one reach_s_one).1 m_newprice
    c_basic 7300 (by decide) (by decide)

end IonityPrices
